import Mathlib

/-!
Verification development for the HTML body-text extractor
(`BodyTextExtractor.py`): a shallow embedding of the tokenizer
(`HtmlTokenParser`), the run-length encoder and cumulative tag tables, the
span scorer and search (`_find_optimal_span`), and the renderers
(`body_text`, `full_text`), together with theorems settling the frozen
claims about them.

The embedding works at the level of the parser callbacks
(`handle_starttag`, `handle_endtag`, `handle_data`): the external HTML
event source (the Python `HTMLParser` plus the BeautifulSoup pre-filter) is
out of scope per the spec, so an input document is a list of events.
Python machine integers are modelled as `Int` (no overflow concerns at
these magnitudes), Python lists as `List`, and the fallible Python list
indexing `l[i]` as `List.getD l i 0`; every theorem below only relies on
in-bounds evaluations of `getD`.
-/

namespace BTE

/-- The Python `str.split()` word splitter over a character list: split on
whitespace runs, dropping empty pieces. `acc` is the current word being
accumulated, in reverse. -/
def wordsAux : List Char → List Char → List (List Char)
  | [], acc => if acc.isEmpty then [] else [acc.reverse]
  | c :: cs, acc =>
    if c.isWhitespace then
      if acc.isEmpty then wordsAux cs [] else acc.reverse :: wordsAux cs []
    else wordsAux cs (c :: acc)

/-- Models Python `data.split()` as used in `handle_data`. -/
def pySplit (s : String) : List String :=
  (wordsAux s.data []).map String.mk

/-- Models `HtmlBodyTextExtractor._is_tag`: first character `<` and last `>`.
Python raises on the empty string; tokens are never empty, and the model
returns `false` there. -/
def is_tag (s : String) : Bool :=
  (s.data.headD ' ' == '<') && (s.data.getLastD ' ' == '>')

/-- Models the regex substitution in `body_text` (a run of spaces replaced by one
space): each maximal run of space characters collapses to a single space. -/
def collapseSpaces : List Char → List Char
  | [] => []
  | [c] => [c]
  | c :: d :: cs =>
    if c = ' ' && d = ' ' then collapseSpaces (d :: cs)
    else c :: collapseSpaces (d :: cs)

/-- Models Python `text.split(chr(10))`: split at every newline, keeping
empty pieces (so the empty string yields one empty piece). -/
def splitLines : List Char → List (List Char)
  | [] => [[]]
  | c :: cs =>
    if c = '\n' then [] :: splitLines cs
    else
      match splitLines cs with
      | [] => [[c]]
      | l :: ls => (c :: l) :: ls

/-- Models Python `t.strip()`: drop whitespace from both ends. -/
def pyStrip (cs : List Char) : List Char :=
  ((cs.dropWhile Char.isWhitespace).reverse.dropWhile Char.isWhitespace).reverse

/-- Models Python `sep.join(pieces)` for a one-character separator. -/
def joinWith (c : Char) : List (List Char) → List Char
  | [] => []
  | [l] => l
  | l :: ls => l ++ c :: joinWith c ls

/-- A structural event from the external markup event source: exactly the
three `HTMLParser` callbacks the extractor implements. -/
inductive Event where
  | startTag (name : String)
  | endTag (name : String)
  | data (content : String)
deriving DecidableEq

/-- The mutable state of `HtmlTokenParser`: parallel token and
classification lists, the body-start token index, and the pending
line-break flag. -/
structure ParserState where
  tokens : List String
  binary_tokens : List Int
  body_start_index : Nat
  break_next : Bool
deriving DecidableEq

/-- `HtmlTokenParser.__init__`. -/
def initState : ParserState :=
  { tokens := [], binary_tokens := [], body_start_index := 0, break_next := false }

/-- The `LINEBREAK_ELEMENTS` set from the source, verbatim. -/
def LINEBREAK_ELEMENTS : List String :=
  ["address", "article", "aside", "blockquote", "canvas", "dd", "div", "dl",
   "dt", "fieldset", "figcaption", "figure", "footer", "form", "h1", "h6",
   "header", "hr", "li", "main", "nav", "noscript", "ol", "output", "p",
   "pre", "section", "table", "tfoot", "ul", "video", "br"]

/-- The line-break adjustment inside `handle_data`: when the pending flag
is set and the chunk produced at least one word, prepend a newline to the
first word. -/
def applyBreak (break_next : Bool) (ws : List String) : List String :=
  if break_next then
    match ws with
    | [] => []
    | w :: rest => ("\n" ++ w) :: rest
  else ws

/-- `HtmlTokenParser.handle_data`: split the chunk into words, apply the
pending line break, append each word with classification `-1`. Note the
source resets `break_next` to `False` inside `if self.break_next:`, so
after any `handle_data` call the flag is down, words or no words. -/
def handle_data (st : ParserState) (dat : String) : ParserState :=
  let ws := applyBreak st.break_next (pySplit dat)
  { st with
    tokens := st.tokens ++ ws,
    binary_tokens := st.binary_tokens ++ ws.map (fun _ => (-1 : Int)),
    break_next := false }

/-- `HtmlTokenParser.handle_starttag`: append classification `+1` and the
token `<tag>`; if the tag is `body`, record `body_start_index :=
len(tokens)` (the index after this tag). The source performs this
assignment on every `body` start tag. -/
def handle_starttag (st : ParserState) (tag : String) : ParserState :=
  let tokens := st.tokens ++ ["<" ++ tag ++ ">"]
  { st with
    binary_tokens := st.binary_tokens ++ [(1 : Int)],
    tokens := tokens,
    body_start_index :=
      if tag == "body" then tokens.length else st.body_start_index }

/-- `HtmlTokenParser.handle_endtag`: append the token `<\tag>` and
classification `+1`; raise the pending line-break flag when the tag is a
line-break element. -/
def handle_endtag (st : ParserState) (tag : String) : ParserState :=
  { st with
    tokens := st.tokens ++ ["<\\" ++ tag ++ ">"],
    break_next := if tag ∈ LINEBREAK_ELEMENTS then true else st.break_next,
    binary_tokens := st.binary_tokens ++ [(1 : Int)] }

/-- Dispatch one event to the corresponding callback. -/
def handleEvent (st : ParserState) (e : Event) : ParserState :=
  match e with
  | .startTag n => handle_starttag st n
  | .endTag n => handle_endtag st n
  | .data d => handle_data st d

/-- Run a whole event stream from the initial parser state. -/
def runEvents (events : List Event) : ParserState :=
  events.foldl handleEvent initState

/-- The in-progress state of `_count_cumulative_tokens`: the current run
accumulator and cumulative token count (the entries `encoded[i]` and
`total_tokens_before[i]` the Python code mutates in place), plus the
already-closed prefixes of both lists, most recent first. -/
structure RLEState where
  cur : Int
  doneRev : List Int
  curTot : Nat
  doneTotRev : List Nat
deriving DecidableEq

/-- One iteration of the loop in `_count_cumulative_tokens`: if adding the
classification value would shrink the magnitude of the current run, close the
run (append a fresh `0` run and copy the running total forward), then
accumulate the value and bump the total. -/
def rleStep (st : RLEState) (token : Int) : RLEState :=
  if (token + st.cur).natAbs < st.cur.natAbs then
    { cur := 0 + token, doneRev := st.cur :: st.doneRev,
      curTot := st.curTot + 1, doneTotRev := st.curTot :: st.doneTotRev }
  else
    { st with cur := st.cur + token, curTot := st.curTot + 1 }

/-- `HtmlBodyTextExtractor._count_cumulative_tokens`: run-length encode the
classification list (starting from the `__init__` values `encoded = [0]`,
`total_tokens_before = [0]`) and finally shift `total_tokens_before` by
inserting a leading `0`. -/
def countCumulativeTokens (binary_tokens : List Int) : List Int × List Nat :=
  let f := binary_tokens.foldl rleStep ⟨0, [], 0, []⟩
  (f.doneRev.reverse ++ [f.cur], 0 :: (f.doneTotRev.reverse ++ [f.curTot]))

/-- The running cumulative positive-sum scan shared by both loops of
`_count_cumulative_tags`: for each run value, add it to the accumulator if
it is positive, and emit the accumulator. -/
def tagsScan : List Int → Int → List Int
  | [], _ => []
  | token :: rest, t =>
    let t1 := if token > 0 then t + token else t
    t1 :: tagsScan rest t1

/-- `num_tags_until` as built by `_count_cumulative_tags`: start from the
`__init__` value `[0]`, append the forward scan, delete the last entry. -/
def numTagsUntil (encoded : List Int) : List Int :=
  (0 :: tagsScan encoded 0).dropLast

/-- `num_tags_after` as built by `_count_cumulative_tags`: start from the
`__init__` value `[0]`, append the scan of the reversed run list, reverse
in place, delete the entry at index 0. -/
def numTagsAfter (encoded : List Int) : List Int :=
  ((0 :: tagsScan encoded.reverse 0).reverse).drop 1

/-- The state of an `HtmlBodyTextExtractor` after `close()`: the parser
fields plus the derived run table, cumulative token counts, the two tag
tables, and the memoization field `body_txt`. -/
structure Extractor where
  tokens : List String
  binary_tokens : List Int
  body_start_index : Nat
  encoded : List Int
  total_tokens_before : List Nat
  num_tags_until : List Int
  num_tags_after : List Int
  body_txt : String
deriving DecidableEq

/-- `HtmlBodyTextExtractor.close`: build the run table and both tag
tables from the finalized parser state (`body_txt` starts out empty from
`__init__`). -/
def closeExtractor (st : ParserState) : Extractor :=
  let ct := countCumulativeTokens st.binary_tokens
  { tokens := st.tokens,
    binary_tokens := st.binary_tokens,
    body_start_index := st.body_start_index,
    encoded := ct.1,
    total_tokens_before := ct.2,
    num_tags_until := numTagsUntil ct.1,
    num_tags_after := numTagsAfter ct.1,
    body_txt := "" }

/-- `HtmlBodyTextExtractor._objective_fcn`: tags excluded before `i`, plus
tags excluded after `j`, plus text tokens between `i` and `j`. -/
def objective (ex : Extractor) (i j : Nat) : Int :=
  let tags_after_j : Int := ex.num_tags_after.getD j 0
  let text_to_i : Int :=
    (ex.total_tokens_before.getD i 0 : Int) - ex.num_tags_until.getD i 0
  let text_to_j : Int :=
    (ex.total_tokens_before.getD j 0 : Int) - ex.num_tags_until.getD j 0
  let text_between_i_j := text_to_j - text_to_i
  ex.num_tags_until.getD i 0 + tags_after_j + text_between_i_j

/-- The pairs `(i, j)` visited by the nested loops of
`_find_optimal_span`, in scan order: `i` in `range(bsi, n - 1)`, `j` in
`range(i, n)`. -/
def searchPairs (bsi n : Nat) : List (Nat × Nat) :=
  (List.range' bsi (n - 1 - bsi)).flatMap
    (fun i => (List.range' i (n - i)).map (fun j => (i, j)))

/-- The body of the nested loops of `_find_optimal_span` for one pair
`(i, j)`: skip when either run value is positive, otherwise update the
best triple on strict score improvement (`score > score_max`). -/
def searchStep (ex : Extractor) (st : Int × Nat × Nat) (p : Nat × Nat) :
    Int × Nat × Nat :=
  if 0 < ex.encoded.getD p.1 0 then st
  else if 0 < ex.encoded.getD p.2 0 then st
  else if st.1 < objective ex p.1 p.2 then (objective ex p.1 p.2, p) else st

/-- The final `(score_max, i_max, j_max)` triple of `_find_optimal_span`:
fold the loop body over the visited pairs starting from
`(0, body_start_index, len(encoded) - 1)`. -/
def searchResult (ex : Extractor) : Int × Nat × Nat :=
  (searchPairs ex.body_start_index ex.encoded.length).foldl (searchStep ex)
    ((0 : Int), (ex.body_start_index, ex.encoded.length - 1))

/-- `HtmlBodyTextExtractor._find_optimal_span`: translate the winning run
indices through `total_tokens_before` to a token range. -/
def findOptimalSpan (ex : Extractor) : Nat × Nat :=
  (ex.total_tokens_before.getD (searchResult ex).2.1 0,
   ex.total_tokens_before.getD (searchResult ex).2.2 0)

/-- The token list rendered by `body_text`: the Python slice
`tokens[start:end]` with Tag-shaped tokens filtered out. -/
def bodyTextTokens (ex : Extractor) : List String :=
  ((ex.tokens.take (findOptimalSpan ex).2).drop (findOptimalSpan ex).1).filter
    (fun t => !(is_tag t))

/-- The computation inside `body_text` (ignoring memoization): join the
non-tag tokens of the span with spaces, collapse space runs, and strip each
line. -/
def bodyTextPure (ex : Extractor) : String :=
  let text := joinWith ' ' ((bodyTextTokens ex).map String.data)
  let text2 := collapseSpaces text
  String.mk (joinWith '\n' ((splitLines text2).map pyStrip))

/-- `HtmlBodyTextExtractor.body_text` with its memoization: if the cache
field is truthy (non-empty) return it, else compute, store and return. -/
def bodyTextCall (ex : Extractor) : String × Extractor :=
  if ex.body_txt ≠ "" then (ex.body_txt, ex)
  else
    let t := bodyTextPure ex
    (t, { ex with body_txt := t })

/-- `HtmlBodyTextExtractor.full_text`: join all non-tag tokens with
spaces, with no collapsing or stripping. -/
def full_text (ex : Extractor) : String :=
  String.mk (joinWith ' ' ((ex.tokens.filter (fun t => !(is_tag t))).map String.data))

/-- Analysis predicate: the pair `(i, j)` survives both `continue` guards
of the search (`encoded[i] <= 0` and `encoded[j] <= 0`). -/
def eligiblePair (ex : Extractor) (p : Nat × Nat) : Prop :=
  ex.encoded.getD p.1 0 ≤ 0 ∧ ex.encoded.getD p.2 0 ≤ 0

instance (ex : Extractor) (p : Nat × Nat) : Decidable (eligiblePair ex p) := by
  unfold eligiblePair; infer_instance

/-- Analysis abbreviation: the score of a candidate pair. -/
def scorePair (ex : Extractor) (p : Nat × Nat) : Int :=
  objective ex p.1 p.2

/-- Spec-side definition (the words of claim C2): the scan region claimed by
the spec, `bsi <= i <= j <= len(Runs) - 1`, with `i` allowed to reach the
final run index. -/
def claimPairs (bsi n : Nat) : List (Nat × Nat) :=
  (List.range' bsi (n - bsi)).flatMap
    (fun i => (List.range' i (n - i)).map (fun j => (i, j)))

/-- Spec-side definition (the words of claim C6): the sum of the magnitudes of
the positive entries of a run list (each positive run contributes its
value, negative runs contribute nothing). -/
def posSum : List Int → Int
  | [] => 0
  | x :: rest => (if x > 0 then x else 0) + posSum rest

/-- All suffix positive-sums of a run list: entry `k` is
`posSum (l.drop k)`, with a final `0` for the empty suffix. -/
def suffixPosSums : List Int → List Int
  | [] => [0]
  | x :: rest => posSum (x :: rest) :: suffixPosSums rest

/-- Adjacent runs have opposite signs (their product is negative). -/
def mulNeg (a b : Int) : Prop := a * b < 0

/-! ### Generic facts about the event loop -/

theorem runEvents_concat (l : List Event) (e : Event) :
    runEvents (l ++ [e]) = handleEvent (runEvents l) e := by
  simp [runEvents, List.foldl_append]

theorem handleEvent_bsi (st : ParserState) (e : Event)
    (h : e ≠ Event.startTag "body") :
    (handleEvent st e).body_start_index = st.body_start_index := by
  cases e with
  | startTag n =>
      have hn : ¬ n = "body" := by
        intro hn; exact h (by rw [hn])
      simp [handleEvent, handle_starttag, hn]
  | endTag n => simp [handleEvent, handle_endtag]
  | data d => simp [handleEvent, handle_data]

/-! ### Claims C1, C3, C5, C6, C8, C9, C10 -/

/-- The event stream of the example document of the spec after upstream script
stripping: `<html><body><p>Hello world</p><p>Goodbye</p></body></html>`. -/
def eventsC1 : List Event :=
  [.startTag "html", .startTag "body", .startTag "p", .data "Hello world",
   .endTag "p", .startTag "p", .data "Goodbye", .endTag "p", .endTag "body",
   .endTag "html"]

/-- The closed extractor session for the example document of the spec. -/
def exC1 : Extractor := closeExtractor (runEvents eventsC1)

/-- C1: on the example document of the spec, the code returns the EMPTY string
from `body_text()`, not `"Hello world\nGoodbye"`. The search region
starts at the raw token index `body_start_index = 2` used as a run index,
which skips the `Hello world` word run (run 1), and the only surviving
candidate pair is the degenerate `(3, 3)`, giving the empty token range
`[7, 7)`. This contradicts the output required by the spec, which is
unreachable for this document under the implemented objective. -/
theorem hello_world_body_text_empty :
    (bodyTextCall exC1).1 = "" ∧ bodyTextPure exC1 = "" ∧
    findOptimalSpan exC1 = (7, 7) ∧
    ("" : String) ≠ "Hello world\nGoodbye" := by
  refine ⟨by decide, by decide, by decide, by decide⟩

/-- C3 (amended): `body_start_index` equals the token index immediately
following the MOST RECENT `<body>` open-tag event (0 when there is none):
the assignment in `handle_starttag` runs on every `body` start tag, so a
second `<body>` tag moves it. -/
theorem body_start_index_tracks_last_body (events : List Event) :
    ((∀ e ∈ events, e ≠ Event.startTag "body") →
       (runEvents events).body_start_index = 0) ∧
    (∀ l₁ l₂, events = l₁ ++ Event.startTag "body" :: l₂ →
       (∀ e ∈ l₂, e ≠ Event.startTag "body") →
       (runEvents events).body_start_index =
         (runEvents (l₁ ++ [Event.startTag "body"])).tokens.length) := by
  constructor
  · induction events using List.reverseRecOn with
    | nil => intro _; rfl
    | append_singleton l e ih =>
        intro h
        rw [runEvents_concat, handleEvent_bsi _ _ (h e (by simp))]
        exact ih (fun x hx => h x (by simp [hx]))
  · intro l₁ l₂ hsplit
    subst hsplit
    induction l₂ using List.reverseRecOn with
    | nil =>
        intro _
        rw [runEvents_concat]
        simp [handleEvent, handle_starttag]
    | append_singleton l₂ e ih =>
        intro hfree
        have h1 : l₁ ++ Event.startTag "body" :: (l₂ ++ [e]) =
            (l₁ ++ Event.startTag "body" :: l₂) ++ [e] := by simp
        rw [h1, runEvents_concat, handleEvent_bsi _ _ (hfree e (by simp))]
        exact ih (fun x hx => hfree x (by simp [hx]))

/-- C3 counterexample: with two `<body>` start tags, `body_start_index`
ends at 3 (after the second `body` tag), not at 1 (the index following the
first `<body>` open tag) as the claim states. -/
theorem body_start_index_second_body_cex :
    (runEvents [Event.startTag "body", Event.data "a",
      Event.startTag "body"]).body_start_index = 3 ∧
    (runEvents [Event.startTag "body"]).tokens.length = 1 ∧
    (3 : Nat) ≠ 1 := by decide

/-- C3 witness: the amended theorem applied at concrete inputs. -/
theorem body_start_index_tracks_last_body_witness :
    (runEvents [Event.data "x"]).body_start_index = 0 ∧
    (runEvents [Event.startTag "body", Event.data "a b",
      Event.startTag "body"]).body_start_index = 4 := by
  constructor
  · exact (body_start_index_tracks_last_body [Event.data "x"]).1 (by decide)
  · have h := (body_start_index_tracks_last_body
      [Event.startTag "body", Event.data "a b", Event.startTag "body"]).2
      [Event.startTag "body", Event.data "a b"] [] rfl (by decide)
    rw [h]; decide

/-- C5 (amended): closing a line-break element raises the pending flag,
and the NEXT `handle_data` event consumes it whatever it contains: when
the chunk yields at least one word the newline is prepended to the first
word, and when it yields none (empty or whitespace-only) the flag is
still cleared, so no later chunk receives the newline. -/
theorem pending_break_consumed_by_any_data (st : ParserState)
    (name dat : String) (h : name ∈ LINEBREAK_ELEMENTS) :
    (handle_endtag st name).break_next = true ∧
    (handle_data (handle_endtag st name) dat).break_next = false ∧
    (handle_data (handle_endtag st name) dat).tokens =
      (handle_endtag st name).tokens ++
        (match pySplit dat with
         | [] => []
         | w :: rest => ("\n" ++ w) :: rest) := by
  have hb : (handle_endtag st name).break_next = true := by
    simp [handle_endtag, h]
  refine ⟨hb, rfl, ?_⟩
  simp [handle_data, applyBreak, hb]

/-- C5 counterexample: after `</p>`, a whitespace-only text chunk (no
words) still consumes the pending flag, so the word of the following chunk
`x` gets no newline; the claim would require the token `"\nx"`. -/
theorem pending_break_whitespace_chunk_cex :
    (runEvents [Event.endTag "p", Event.data " ",
      Event.data "x"]).tokens = ["<\\p>", "x"] ∧
    (["<\\p>", "x"] : List String) ≠ ["<\\p>", "\nx"] := by decide

/-- C5 witness: the amended theorem applied at a concrete input. -/
theorem pending_break_consumed_by_any_data_witness :
    (handle_endtag initState "p").break_next = true ∧
    (handle_data (handle_endtag initState "p") "hi there").break_next = false ∧
    (handle_data (handle_endtag initState "p") "hi there").tokens =
      (handle_endtag initState "p").tokens ++ ["\nhi", "there"] := by
  have h := pending_break_consumed_by_any_data initState "p" "hi there"
    (by decide)
  refine ⟨h.1, h.2.1, ?_⟩
  rw [h.2.2]; decide

/-! ### The suffix tag table (claim C6) -/

theorem posSum_append (l : List Int) (x : Int) :
    posSum (l ++ [x]) = posSum l + (if x > 0 then x else 0) := by
  induction l with
  | nil => simp [posSum]
  | cons a l ih => simp [posSum, ih]; ring

theorem posSum_reverse (l : List Int) : posSum l.reverse = posSum l := by
  induction l with
  | nil => rfl
  | cons a l ih =>
      rw [List.reverse_cons, posSum_append, ih]
      simp [posSum]; ring

theorem getLastD_tagsScan (l : List Int) (t : Int) :
    (tagsScan l t).getLastD t = t + posSum l := by
  induction l generalizing t with
  | nil => simp [tagsScan, posSum]
  | cons a l ih =>
      simp only [tagsScan, List.getLastD_cons]
      rw [ih]
      by_cases h : a > 0 <;> simp [posSum, h] <;> ring

theorem tagsScan_concat (l : List Int) (x t : Int) :
    tagsScan (l ++ [x]) t =
      tagsScan l t ++
        [if x > 0 then (tagsScan l t).getLastD t + x
         else (tagsScan l t).getLastD t] := by
  induction l generalizing t with
  | nil => simp [tagsScan]
  | cons a l ih =>
      simp only [List.cons_append, tagsScan, List.append_eq]
      rw [ih]
      simp only [List.cons_append, List.getLastD_cons]

theorem suffix_scan (l : List Int) :
    (0 :: tagsScan l.reverse 0).reverse = suffixPosSums l := by
  induction l with
  | nil => rfl
  | cons x l ih =>
      rw [List.reverse_cons x l, tagsScan_concat, getLastD_tagsScan,
        posSum_reverse]
      simp only [suffixPosSums]
      rw [← ih]
      simp only [List.reverse_cons, List.reverse_append, List.reverse_nil,
        List.nil_append, List.singleton_append, List.cons_append]
      by_cases h : x > 0 <;> simp [posSum, h] <;> ring_nf

theorem suffixPosSums_getD (l : List Int) (k : Nat) :
    (suffixPosSums l).getD k 0 = posSum (l.drop k) := by
  induction l generalizing k with
  | nil => cases k <;> simp [suffixPosSums, posSum]
  | cons x l ih =>
      cases k with
      | zero => simp [suffixPosSums]
      | succ k => simpa [suffixPosSums] using ih k

theorem numTagsAfter_getD (l : List Int) (k : Nat) :
    (numTagsAfter l).getD k 0 = posSum (l.drop (k + 1)) := by
  cases l with
  | nil => simp [numTagsAfter, tagsScan, posSum]
  | cons x l =>
      have h : numTagsAfter (x :: l) = suffixPosSums l := by
        unfold numTagsAfter
        rw [suffix_scan (x :: l)]
        simp [suffixPosSums]
      rw [h, suffixPosSums_getD]
      rfl

/-- C6 (amended): at every position `k`, the suffix tag table
`num_tags_after[k]` equals the sum of the magnitudes of all positive
(tag) runs with index STRICTLY GREATER than `k` — the run at `k` itself
is excluded (the `del num_tags_after[0]` shifts the table by one). For
word-run indices, whose run value is not positive, this coincides with
the claimed `>= k` sum. -/
theorem num_tags_after_strict_suffix (events : List Event) (k : Nat) :
    ((closeExtractor (runEvents events)).num_tags_after).getD k 0 =
      posSum ((closeExtractor (runEvents events)).encoded.drop (k + 1)) :=
  numTagsAfter_getD _ k

/-- The closed session for a document consisting of a single start tag. -/
def exC6 : Extractor := closeExtractor (runEvents [Event.startTag "a"])

/-- C6 counterexample: for a document that is one start tag, the single
run is `[1]` and `num_tags_after = [0]`, yet the claimed sum over runs
with index `>= 0` is 1. -/
theorem num_tags_after_at_k_cex :
    exC6.encoded = [1] ∧ exC6.num_tags_after = [0] ∧
    posSum (exC6.encoded.drop 0) = 1 ∧
    exC6.num_tags_after.getD 0 0 = 0 ∧ ((0 : Int) ≠ 1) := by decide

/-- The closed session for the empty event stream (zero tokens). -/
def exC8 : Extractor := closeExtractor (runEvents [])

/-- C8: the zero-token session is total: the run table is the single
sentinel `[0]`, the search visits no pairs (it short-circuits), the
fallback indices stay inside `total_tokens_before`, the selected span is
the empty range `(0, 0)`, and `body_text()` returns the empty string. -/
theorem empty_session_total :
    exC8.tokens = [] ∧ exC8.encoded = [0] ∧
    exC8.total_tokens_before = [0, 0] ∧
    searchPairs exC8.body_start_index exC8.encoded.length = [] ∧
    findOptimalSpan exC8 = (0, 0) ∧
    exC8.body_start_index < exC8.total_tokens_before.length ∧
    exC8.encoded.length - 1 < exC8.total_tokens_before.length ∧
    (bodyTextCall exC8).1 = "" ∧ bodyTextPure exC8 = "" := by decide

/-- Replacing only the memo field leaves the computed text unchanged. -/
theorem bodyTextPure_memo_irrel (ex : Extractor) (s : String) :
    bodyTextPure { ex with body_txt := s } = bodyTextPure ex := rfl

/-- C9: two successive `body_text()` calls on the same session return
equal strings, whether or not the first call populated the memo field
(an empty first result is not cached and is simply recomputed). -/
theorem body_text_idempotent (ex : Extractor) :
    (bodyTextCall (bodyTextCall ex).2).1 = (bodyTextCall ex).1 := by
  by_cases h : ex.body_txt = ""
  · by_cases h2 : bodyTextPure ex = ""
    · simp [bodyTextCall, h, h2, bodyTextPure_memo_irrel]
    · simp [bodyTextCall, h, h2]
  · simp [bodyTextCall, h]

/-- C9 witness: the theorem applied at a concrete closed session. -/
theorem body_text_idempotent_witness :
    (bodyTextCall (bodyTextCall exC1).2).1 = (bodyTextCall exC1).1 :=
  body_text_idempotent exC1

/-- C10 (amended): a whitespace-delimited word of a text chunk that
begins with `<` and ends with `>` is appended as a Word Token with
classification `-1`, satisfies `_is_tag` (which tests only the first and
last characters), and is therefore dropped by the renderer filter used by
both `body_text` and `full_text` — PROVIDED no line-break newline is
pending, since a pending newline is prepended to the first word and
changes its first character. -/
theorem tag_shaped_word_filtered (st : ParserState) (dat w : String)
    (hb : st.break_next = false) (hw : w ∈ pySplit dat)
    (h1 : w.data.headD ' ' = '<') (h2 : w.data.getLastD ' ' = '>') :
    is_tag w = true ∧
    (handle_data st dat).tokens = st.tokens ++ pySplit dat ∧
    (handle_data st dat).binary_tokens =
      st.binary_tokens ++ (pySplit dat).map (fun _ => (-1 : Int)) ∧
    (∀ l : List String, w ∉ l.filter (fun t => !(is_tag t))) ∧
    (∀ ex : Extractor, w ∉ bodyTextTokens ex) := by
  have ht : is_tag w = true := by
    unfold is_tag
    rw [h1, h2]
    decide
  have key : ∀ l : List String, w ∉ l.filter (fun t => !(is_tag t)) := by
    intro l hl
    have hp := List.of_mem_filter hl
    rw [ht] at hp
    simp at hp
  refine ⟨ht, ?_, ?_, key, fun ex => key _⟩
  · simp [handle_data, applyBreak, hb]
  · simp [handle_data, applyBreak, hb]

/-- The closed session in which a tag-shaped word follows a line-break
close tag. -/
def exC10 : Extractor :=
  closeExtractor (runEvents [Event.endTag "p", Event.data "<foo> bar"])

/-- C10 counterexample: the chunk `"<foo> bar"` contains the
whitespace-delimited word `"<foo>"` (first character `<`, last `>`), but
fed right after `</p>` the pending newline turns the stored Word Token
into `"\n<foo>"`, which fails the shape test and therefore APPEARS in the
`full_text()` output, contradicting the unconditional claim. -/
theorem tag_shaped_word_newline_cex :
    "<foo>" ∈ pySplit "<foo> bar" ∧
    ("<foo>" : String).data.headD ' ' = '<' ∧
    ("<foo>" : String).data.getLastD ' ' = '>' ∧
    exC10.tokens = ["<\\p>", "\n<foo>", "bar"] ∧
    exC10.binary_tokens = [1, -1, -1] ∧
    is_tag "\n<foo>" = false ∧
    "\n<foo>" ∈ exC10.tokens.filter (fun t => !(is_tag t)) ∧
    full_text exC10 = "\n<foo> bar" := by decide

/-- C10 witness: the amended theorem applied at a concrete input. -/
theorem tag_shaped_word_filtered_witness :
    is_tag "<foo>" = true ∧
    (handle_data initState "a <foo> b").tokens = ["a", "<foo>", "b"] ∧
    "<foo>" ∉ (["<p>", "a", "<foo>", "b"].filter (fun t => !(is_tag t))) := by
  have h := tag_shaped_word_filtered initState "a <foo> b" "<foo>" rfl
    (by decide) (by decide) (by decide)
  refine ⟨h.1, ?_, h.2.2.2.1 _⟩
  rw [h.2.1]; decide

/-! ### The optimal-span search (claims C2, C4) -/

theorem searchStep_skip1 (ex : Extractor) (st : Int × Nat × Nat)
    (p : Nat × Nat) (h : 0 < ex.encoded.getD p.1 0) :
    searchStep ex st p = st := by
  unfold searchStep
  rw [if_pos h]

theorem searchStep_skip2 (ex : Extractor) (st : Int × Nat × Nat)
    (p : Nat × Nat) (h1 : ¬ 0 < ex.encoded.getD p.1 0)
    (h2 : 0 < ex.encoded.getD p.2 0) :
    searchStep ex st p = st := by
  unfold searchStep
  rw [if_neg h1, if_pos h2]

theorem searchStep_update (ex : Extractor) (st : Int × Nat × Nat)
    (p : Nat × Nat) (h1 : ¬ 0 < ex.encoded.getD p.1 0)
    (h2 : ¬ 0 < ex.encoded.getD p.2 0)
    (h3 : st.1 < objective ex p.1 p.2) :
    searchStep ex st p = (objective ex p.1 p.2, p) := by
  unfold searchStep
  rw [if_neg h1, if_neg h2, if_pos h3]

theorem searchStep_keep (ex : Extractor) (st : Int × Nat × Nat)
    (p : Nat × Nat) (h1 : ¬ 0 < ex.encoded.getD p.1 0)
    (h2 : ¬ 0 < ex.encoded.getD p.2 0)
    (h3 : ¬ st.1 < objective ex p.1 p.2) :
    searchStep ex st p = st := by
  unfold searchStep
  rw [if_neg h1, if_neg h2, if_neg h3]

/-- Characterization of the search fold of `_find_optimal_span` on any
pair list: either no visited eligible pair scores above 0 and the initial
triple survives, or the final triple records the first eligible pair
attaining the (positive) maximal score — later pairs never beat it
weakly, earlier pairs never reach it. -/
theorem searchFold_char (ex : Extractor) (b0 : Nat × Nat)
    (ps : List (Nat × Nat)) :
    (ps.foldl (searchStep ex) ((0 : Int), b0) = ((0 : Int), b0) ∧
       ∀ p ∈ ps, eligiblePair ex p → scorePair ex p ≤ 0) ∨
    (∃ l₁ l₂ b, ps = l₁ ++ b :: l₂ ∧ eligiblePair ex b ∧ 0 < scorePair ex b ∧
       ps.foldl (searchStep ex) ((0 : Int), b0) = (scorePair ex b, b) ∧
       (∀ p ∈ l₁, eligiblePair ex p → scorePair ex p < scorePair ex b) ∧
       (∀ p ∈ l₂, eligiblePair ex p → scorePair ex p ≤ scorePair ex b)) := by
  induction ps using List.reverseRecOn with
  | nil => exact Or.inl ⟨rfl, by simp⟩
  | append_singleton qs p ih =>
      rw [List.foldl_append]
      simp only [List.foldl_cons, List.foldl_nil]
      by_cases he1 : 0 < ex.encoded.getD p.1 0
      · have hstep : ∀ st, searchStep ex st p = st :=
          fun st => searchStep_skip1 ex st p he1
        rw [hstep]
        rcases ih with ⟨heq, hall⟩ | ⟨l₁, l₂, b, hqs, hb, hpos, heq, h₁, h₂⟩
        · refine Or.inl ⟨heq, ?_⟩
          intro q hq hel
          rcases List.mem_append.mp hq with hq | hq
          · exact hall q hq hel
          · rw [List.mem_singleton.mp hq] at hel
            exact absurd hel.1 (not_le.mpr he1)
        · refine Or.inr ⟨l₁, l₂ ++ [p], b, by rw [hqs]; simp, hb, hpos, heq,
            h₁, ?_⟩
          intro q hq hel
          rcases List.mem_append.mp hq with hq | hq
          · exact h₂ q hq hel
          · rw [List.mem_singleton.mp hq] at hel
            exact absurd hel.1 (not_le.mpr he1)
      · by_cases he2 : 0 < ex.encoded.getD p.2 0
        · have hstep : ∀ st, searchStep ex st p = st :=
            fun st => searchStep_skip2 ex st p he1 he2
          rw [hstep]
          rcases ih with ⟨heq, hall⟩ | ⟨l₁, l₂, b, hqs, hb, hpos, heq, h₁, h₂⟩
          · refine Or.inl ⟨heq, ?_⟩
            intro q hq hel
            rcases List.mem_append.mp hq with hq | hq
            · exact hall q hq hel
            · rw [List.mem_singleton.mp hq] at hel
              exact absurd hel.2 (not_le.mpr he2)
          · refine Or.inr ⟨l₁, l₂ ++ [p], b, by rw [hqs]; simp, hb, hpos, heq,
              h₁, ?_⟩
            intro q hq hel
            rcases List.mem_append.mp hq with hq | hq
            · exact h₂ q hq hel
            · rw [List.mem_singleton.mp hq] at hel
              exact absurd hel.2 (not_le.mpr he2)
        · have hel_p : eligiblePair ex p := ⟨not_lt.mp he1, not_lt.mp he2⟩
          rcases ih with ⟨heq, hall⟩ | ⟨l₁, l₂, b, hqs, hb, hpos, heq, h₁, h₂⟩
          · rw [heq]
            by_cases hs : (0 : Int) < objective ex p.1 p.2
            · have hstep : searchStep ex ((0 : Int), b0) p =
                  (objective ex p.1 p.2, p) :=
                searchStep_update ex ((0 : Int), b0) p he1 he2 hs
              rw [hstep]
              refine Or.inr ⟨qs, [], p, rfl, hel_p, hs, rfl, ?_, by simp⟩
              intro q hq hel
              exact lt_of_le_of_lt (hall q hq hel) hs
            · have hstep : searchStep ex ((0 : Int), b0) p =
                  ((0 : Int), b0) :=
                searchStep_keep ex ((0 : Int), b0) p he1 he2 hs
              rw [hstep]
              refine Or.inl ⟨rfl, ?_⟩
              intro q hq hel
              rcases List.mem_append.mp hq with hq | hq
              · exact hall q hq hel
              · rw [List.mem_singleton.mp hq]
                exact not_lt.mp hs
          · rw [heq]
            by_cases hs : scorePair ex b < objective ex p.1 p.2
            · have hstep : searchStep ex (scorePair ex b, b) p =
                  (objective ex p.1 p.2, p) :=
                searchStep_update ex (scorePair ex b, b) p he1 he2 hs
              rw [hstep]
              refine Or.inr ⟨qs, [], p, rfl, hel_p, lt_trans hpos hs, rfl,
                ?_, by simp⟩
              intro q hq hel
              rw [hqs] at hq
              rcases List.mem_append.mp hq with hq | hq
              · exact lt_trans (h₁ q hq hel) hs
              · rcases List.mem_cons.mp hq with hq | hq
                · rw [hq]; exact hs
                · exact lt_of_le_of_lt (h₂ q hq hel) hs
            · have hstep : searchStep ex (scorePair ex b, b) p =
                  (scorePair ex b, b) :=
                searchStep_keep ex (scorePair ex b, b) p he1 he2 hs
              rw [hstep]
              refine Or.inr ⟨l₁, l₂ ++ [p], b, by rw [hqs]; simp, hb, hpos,
                rfl, h₁, ?_⟩
              intro q hq hel
              rcases List.mem_append.mp hq with hq | hq
              · exact h₂ q hq hel
              · rw [List.mem_singleton.mp hq]
                exact not_lt.mp hs

/-- C2 (amended): `_find_optimal_span` returns the token-count table
evaluated at the winning run-index pair, where the winner is the FIRST
maximizer (strict-improvement updates) over the scanned region — which
has `i` ranging only over `body_start_index <= i <= len(Runs) - 2`
(the outer `range(self.body_start_index, len(self.encoded) - 1)` stops
before the final run index, and its lower bound is the raw
`body_start_index` token index used directly as a run index) and
`i <= j <= len(Runs) - 1`, both restricted to runs `<= 0` — or the
initial fallback pair when no scanned eligible pair scores above 0. -/
theorem find_optimal_span_first_max (ex : Extractor) :
    ∃ im jm,
      findOptimalSpan ex =
        (ex.total_tokens_before.getD im 0, ex.total_tokens_before.getD jm 0) ∧
      (((im, jm) = (ex.body_start_index, ex.encoded.length - 1) ∧
          ∀ p ∈ searchPairs ex.body_start_index ex.encoded.length,
            eligiblePair ex p → scorePair ex p ≤ 0) ∨
        (∃ l₁ l₂,
          searchPairs ex.body_start_index ex.encoded.length =
            l₁ ++ (im, jm) :: l₂ ∧
          eligiblePair ex (im, jm) ∧ 0 < scorePair ex (im, jm) ∧
          (∀ p ∈ l₁,
            eligiblePair ex p → scorePair ex p < scorePair ex (im, jm)) ∧
          (∀ p ∈ l₂,
            eligiblePair ex p → scorePair ex p ≤ scorePair ex (im, jm)))) := by
  rcases searchFold_char ex (ex.body_start_index, ex.encoded.length - 1)
      (searchPairs ex.body_start_index ex.encoded.length) with
    ⟨heq, hall⟩ | ⟨l₁, l₂, b, hps, hb, hpos, heq, h₁, h₂⟩
  · refine ⟨ex.body_start_index, ex.encoded.length - 1, ?_,
      Or.inl ⟨rfl, hall⟩⟩
    unfold findOptimalSpan searchResult
    rw [heq]
  · refine ⟨b.1, b.2, ?_, Or.inr ⟨l₁, l₂, hps, hb, hpos, h₁, h₂⟩⟩
    unfold findOptimalSpan searchResult
    rw [heq]

/-- The closed session for `<x>` followed by the word `w`. -/
def exC2 : Extractor :=
  closeExtractor (runEvents [Event.startTag "x", Event.data "w"])

/-- C2 counterexample: with runs `[1, -1]`, the scan region of the claim
`bsi <= i <= j <= len(Runs) - 1` contains the eligible pair `(1, 1)`
with positive score, so the claim predicts the returned token range
`(TokenCountBefore[1], TokenCountBefore[1]) = (1, 1)`; the outer code
loop stops before the last run index, never visits `(1, 1)`, and
returns the fallback range `(0, 1)`. -/
theorem find_optimal_span_scan_region_cex :
    claimPairs exC2.body_start_index exC2.encoded.length =
      [(0, 0), (0, 1), (1, 1)] ∧
    eligiblePair exC2 (1, 1) ∧ ¬ eligiblePair exC2 (0, 0) ∧
    ¬ eligiblePair exC2 (0, 1) ∧ 0 < scorePair exC2 (1, 1) ∧
    (exC2.total_tokens_before.getD 1 0, exC2.total_tokens_before.getD 1 0) =
      ((1 : Nat), (1 : Nat)) ∧
    findOptimalSpan exC2 = (0, 1) ∧
    ((0, 1) : Nat × Nat) ≠ (1, 1) := by decide

/-- The closed session for a single start tag `<x>`. -/
def exC2w : Extractor := closeExtractor (runEvents [Event.startTag "x"])

/-- C2 witness: the characterization applied at a concrete session. -/
theorem find_optimal_span_first_max_witness :
    findOptimalSpan exC2w = (0, 0) := by
  rcases find_optimal_span_first_max exC2w with ⟨im, jm, heq, hd⟩
  rcases hd with ⟨hpair, _⟩ | ⟨l₁, l₂, hps, _⟩
  · rw [Prod.mk.injEq] at hpair
    obtain ⟨h1, h2⟩ := hpair
    subst h1; subst h2
    rw [heq]; decide
  · exfalso
    have hnil : searchPairs exC2w.body_start_index exC2w.encoded.length =
        [] := by decide
    rw [hnil] at hps
    simp at hps

/-- C4 (amended): when no scanned eligible pair scores above 0,
`_find_optimal_span` returns the fallback
`(total_tokens_before[body_start_index],
total_tokens_before[len(Runs) - 1])`: the raw `body_start_index` token
index and the last run index, both mapped through the token-count table.
The second component counts the tokens BEFORE the final run, so the
fallback range stops short of the document end (and its start is the
table entry at `body_start_index`, not the body-start token index
itself). -/
theorem find_optimal_span_fallback (ex : Extractor)
    (h : ∀ p ∈ searchPairs ex.body_start_index ex.encoded.length,
      eligiblePair ex p → scorePair ex p ≤ 0) :
    findOptimalSpan ex =
      (ex.total_tokens_before.getD ex.body_start_index 0,
       ex.total_tokens_before.getD (ex.encoded.length - 1) 0) := by
  rcases searchFold_char ex (ex.body_start_index, ex.encoded.length - 1)
      (searchPairs ex.body_start_index ex.encoded.length) with
    ⟨heq, _⟩ | ⟨l₁, l₂, b, hps, hb, hpos, _, _, _⟩
  · unfold findOptimalSpan searchResult
    rw [heq]
  · exfalso
    have hmem : b ∈ searchPairs ex.body_start_index ex.encoded.length := by
      rw [hps]
      exact List.mem_append_right _ (List.mem_cons_self _ _)
    exact absurd (h b hmem hb) (not_le.mpr hpos)

/-- The closed session for a pure-text document with three words. -/
def exC4 : Extractor := closeExtractor (runEvents [Event.data "a b c"])

/-- C4 counterexample: for a pure-text document (runs `[-3]`) the search
scans no pairs and falls back, but the returned range is `(0, 0)` — the
empty range — not a range extending to the document end (token index 3);
`body_text()` is consequently empty. -/
theorem fallback_not_document_end_cex :
    searchPairs exC4.body_start_index exC4.encoded.length = [] ∧
    findOptimalSpan exC4 = (0, 0) ∧
    exC4.tokens.length = 3 ∧ ((0 : Nat) ≠ 3) ∧
    bodyTextPure exC4 = "" := by decide

/-- C4 witness: the amended fallback theorem at a concrete session. -/
theorem find_optimal_span_fallback_witness :
    findOptimalSpan exC4 =
      (exC4.total_tokens_before.getD exC4.body_start_index 0,
       exC4.total_tokens_before.getD (exC4.encoded.length - 1) 0) :=
  find_optimal_span_fallback exC4 (by decide)

/-! ### Parallel lengths and run alternation (claim C7) -/

theorem binary_starttag (st : ParserState) (n : String) :
    (handle_starttag st n).binary_tokens = st.binary_tokens ++ [(1 : Int)] :=
  rfl

theorem binary_endtag (st : ParserState) (n : String) :
    (handle_endtag st n).binary_tokens = st.binary_tokens ++ [(1 : Int)] :=
  rfl

theorem binary_data (st : ParserState) (d : String) :
    (handle_data st d).binary_tokens =
      st.binary_tokens ++
        (applyBreak st.break_next (pySplit d)).map (fun _ => (-1 : Int)) :=
  rfl

theorem tokens_starttag (st : ParserState) (n : String) :
    (handle_starttag st n).tokens = st.tokens ++ ["<" ++ n ++ ">"] := rfl

theorem tokens_endtag (st : ParserState) (n : String) :
    (handle_endtag st n).tokens = st.tokens ++ ["<\\" ++ n ++ ">"] := rfl

theorem tokens_data (st : ParserState) (d : String) :
    (handle_data st d).tokens =
      st.tokens ++ applyBreak st.break_next (pySplit d) := rfl

theorem binary_tokens_pm (events : List Event) :
    ∀ b ∈ (runEvents events).binary_tokens, b = 1 ∨ b = -1 := by
  induction events using List.reverseRecOn with
  | nil => intro b hb; simp [runEvents, initState] at hb
  | append_singleton l e ih =>
      intro b hb
      rw [runEvents_concat] at hb
      cases e with
      | startTag n =>
          rw [show handleEvent (runEvents l) (Event.startTag n) =
            handle_starttag (runEvents l) n from rfl, binary_starttag] at hb
          rcases List.mem_append.mp hb with hb | hb
          · exact ih b hb
          · exact Or.inl (List.mem_singleton.mp hb)
      | endTag n =>
          rw [show handleEvent (runEvents l) (Event.endTag n) =
            handle_endtag (runEvents l) n from rfl, binary_endtag] at hb
          rcases List.mem_append.mp hb with hb | hb
          · exact ih b hb
          · exact Or.inl (List.mem_singleton.mp hb)
      | data d =>
          rw [show handleEvent (runEvents l) (Event.data d) =
            handle_data (runEvents l) d from rfl, binary_data] at hb
          rcases List.mem_append.mp hb with hb | hb
          · exact ih b hb
          · rcases List.mem_map.mp hb with ⟨w, _, hw⟩
            exact Or.inr hw.symm

theorem tokens_binary_same_length (events : List Event) :
    (runEvents events).tokens.length = (runEvents events).binary_tokens.length := by
  induction events using List.reverseRecOn with
  | nil => rfl
  | append_singleton l e ih =>
      rw [runEvents_concat]
      cases e with
      | startTag n =>
          rw [show handleEvent (runEvents l) (Event.startTag n) =
            handle_starttag (runEvents l) n from rfl,
            binary_starttag, tokens_starttag]
          simp [ih]
      | endTag n =>
          rw [show handleEvent (runEvents l) (Event.endTag n) =
            handle_endtag (runEvents l) n from rfl,
            binary_endtag, tokens_endtag]
          simp [ih]
      | data d =>
          rw [show handleEvent (runEvents l) (Event.data d) =
            handle_data (runEvents l) d from rfl,
            binary_data, tokens_data]
          simp [ih]

/-- The invariant maintained by the run-length-encoding loop: the runs
seen so far (current first) strictly alternate in sign, and the current
run is nonzero as soon as at least one run has been closed. -/
def RLEInv (st : RLEState) : Prop :=
  List.Chain' mulNeg (st.cur :: st.doneRev) ∧ (st.doneRev ≠ [] → st.cur ≠ 0)

theorem push_cases (t c : Int) (ht : t = 1 ∨ t = -1) :
    ((t + c).natAbs < c.natAbs) ↔ ((t = 1 ∧ c < 0) ∨ (t = -1 ∧ 0 < c)) := by
  rcases ht with h | h <;> subst h <;> omega

theorem rleStep_inv (st : RLEState) (t : Int) (ht : t = 1 ∨ t = -1)
    (h : RLEInv st) : RLEInv (rleStep st t) := by
  obtain ⟨h1, h2⟩ := h
  unfold rleStep
  by_cases hp : (t + st.cur).natAbs < st.cur.natAbs
  · rw [if_pos hp]
    constructor
    · refine List.chain'_cons.mpr ⟨?_, h1⟩
      unfold mulNeg
      rcases (push_cases t st.cur ht).mp hp with ⟨h3, h4⟩ | ⟨h3, h4⟩ <;>
        subst h3
      · have : (0 : Int) + 1 = 1 := by omega
        rw [this, one_mul]; exact h4
      · have : (0 : Int) + -1 = -1 := by omega
        rw [this, neg_one_mul]; omega
    · intro _
      rcases ht with h3 | h3 <;> subst h3 <;> simp
  · rw [if_neg hp]
    have hsign : (0 < st.cur → 0 < st.cur + t) ∧
        (st.cur < 0 → st.cur + t < 0) ∧ (st.cur ≠ 0 → st.cur + t ≠ 0) := by
      rcases ht with h3 | h3 <;> subst h3 <;> omega
    constructor
    · cases hdr : st.doneRev with
      | nil => exact List.chain'_singleton _
      | cons hhead rest =>
          rw [hdr] at h1 h2
          refine List.chain'_cons.mpr ⟨?_, (List.chain'_cons.mp h1).2⟩
          have hch : mulNeg st.cur hhead := (List.chain'_cons.mp h1).1
          unfold mulNeg at hch ⊢
          rcases mul_neg_iff.mp hch with ⟨ha, hb⟩ | ⟨ha, hb⟩
          · exact mul_neg_iff.mpr (Or.inl ⟨hsign.1 ha, hb⟩)
          · exact mul_neg_iff.mpr (Or.inr ⟨hsign.2.1 ha, hb⟩)
    · intro hne
      exact hsign.2.2 (h2 hne)

theorem rle_fold_inv (l : List Int) (hl : ∀ b ∈ l, b = 1 ∨ b = -1) :
    ∀ st, RLEInv st → RLEInv (l.foldl rleStep st) := by
  induction l with
  | nil => intro st h; exact h
  | cons t l ih =>
      intro st h
      rw [List.foldl_cons]
      exact ih (fun b hb => hl b (by simp [hb])) _
        (rleStep_inv st t (hl t (by simp)) h)

theorem encoded_chain (binary : List Int)
    (hl : ∀ b ∈ binary, b = 1 ∨ b = -1) :
    List.Chain' mulNeg (countCumulativeTokens binary).1 := by
  have h := rle_fold_inv binary hl ⟨0, [], 0, []⟩
    ⟨List.chain'_singleton 0, by simp⟩
  have heq : (countCumulativeTokens binary).1 =
      ((binary.foldl rleStep ⟨0, [], 0, []⟩).cur ::
        (binary.foldl rleStep ⟨0, [], 0, []⟩).doneRev).reverse := by
    unfold countCumulativeTokens
    simp [List.reverse_cons]
  rw [heq, List.chain'_reverse]
  refine List.Chain'.imp ?_ h.1
  intro a b hab
  show mulNeg b a
  unfold mulNeg at hab ⊢
  rw [mul_comm]
  exact hab

theorem chain'_getD {R : Int → Int → Prop} :
    ∀ (l : List Int), List.Chain' R l →
      ∀ k, k + 1 < l.length → R (l.getD k 0) (l.getD (k + 1) 0)
  | [], _, k, h => absurd h (by simp)
  | [_], _, k, h => absurd h (by simp)
  | a :: b :: rest, hc, 0, _ => by
      simp only [List.getD_cons_zero, List.getD_cons_succ]
      exact (List.chain'_cons.mp hc).1
  | a :: b :: rest, hc, k + 1, h => by
      simp only [List.getD_cons_succ]
      exact chain'_getD (b :: rest) (List.chain'_cons.mp hc).2 k
        (by simpa using h)

/-- C7: after every event the token and classification lists have equal
length, and after close the run-length-encoded sequence strictly
alternates in sign: adjacent entries have a negative product. -/
theorem tokens_aligned_and_runs_alternate (events : List Event) :
    (runEvents events).tokens.length =
      (runEvents events).binary_tokens.length ∧
    ∀ k, k + 1 < (closeExtractor (runEvents events)).encoded.length →
      (closeExtractor (runEvents events)).encoded.getD k 0 *
        (closeExtractor (runEvents events)).encoded.getD (k + 1) 0 < 0 := by
  refine ⟨tokens_binary_same_length events, ?_⟩
  intro k hk
  have hch := encoded_chain (runEvents events).binary_tokens
    (binary_tokens_pm events)
  exact chain'_getD _ hch k hk

/-- C7 witness: the invariant theorem applied at a concrete session with
runs `[1, -1]`. -/
theorem tokens_aligned_and_runs_alternate_witness :
    (runEvents [Event.startTag "a", Event.data "w"]).tokens.length =
      (runEvents [Event.startTag "a", Event.data "w"]).binary_tokens.length ∧
    (closeExtractor (runEvents [Event.startTag "a",
        Event.data "w"])).encoded.getD 0 0 *
      (closeExtractor (runEvents [Event.startTag "a",
        Event.data "w"])).encoded.getD 1 0 < 0 := by
  have h := tokens_aligned_and_runs_alternate [Event.startTag "a",
    Event.data "w"]
  exact ⟨h.1, h.2 0 (by decide)⟩

end BTE
